import Mathlib

/-!
Verification model of the TinyAD9833 firmware (TinyAD9833.ino).

The source is a serial command interpreter driving an AD9833 DDS chip:
a numeric accumulator plus command dispatcher (`parseCommand`), a value
conversion (`parseValue`, `powerOf10`), and a register encoder
(`AD9833_setFrequency`, `AD9833_reset`).  We embed the program state as an
explicit structure and each character-processing step as a pure function
returning the new state together with the list of 16-bit words handed to
`AD9833_writeRegister` (the Bit-Link).  The C `double` values are modelled
exactly as rationals; the C `unsigned long` (32 bits on AVR) is modelled as
`Nat` with an explicit `% 4294967296` where a wrap can occur.
-/

/-- Control word for reset / analog midscale output (source: `wReset`). -/
def wReset : ℕ := 0x0100

/-- Control word for sine output (source: `wSine`). -/
def wSine : ℕ := 0x0000

/-- Control word for triangle output (source: `wTriangle`). -/
def wTriangle : ℕ := 0x0002

/-- Control word for rectangle output (source: `wRectangle`, value 0b101000). -/
def wRectangle : ℕ := 0x0028

/-- Control word for half-frequency rectangle output (source: `wRectangle2`). -/
def wRectangle2 : ℕ := 0x0020

/-- The mutable program state: the eight-slot digit buffer `digitArray`
(index 0 = least significant / most recently entered digit), the scale
factors `multiplier` and `divider`, the `debug` and `echo` flags, the
persisted `waveType`, and the two static counters of `parseCommand`:
`numeric` (digits entered since the last terminator) and `decimal`
(digit count at the decimal point, plus one; 0 = no point seen). -/
structure MState where
  digitArray : List ℕ
  multiplier : ℕ
  divider : ℕ
  debug : ℕ
  echo : ℕ
  waveType : ℕ
  numeric : ℕ
  decimal : ℕ
deriving DecidableEq

/-- Power-on state: digit buffer preloaded with 1000 Hz
(`digitArray[3] = 1`), multiplier and divider 1, debug off, echo on,
wave type `wReset`, counters zero. -/
def initState : MState :=
  { digitArray := [0, 0, 0, 1, 0, 0, 0, 0]
    multiplier := 1
    divider := 1
    debug := 0
    echo := 1
    waveType := wReset
    numeric := 0
    decimal := 0 }

/-- Source `powerOf10`: repeated `y = y * 10` on a 32-bit `unsigned long`,
which equals `10 ^ x` reduced modulo 2^32. -/
def powerOf10 (x : ℕ) : ℕ := 10 ^ x % 4294967296

/-- Source `parseValue` accumulation loop: `f = f + digitArray[iii] *
powerOf10(iii)` for `iii = 0..7` on a 32-bit `unsigned long` accumulator. -/
def rawValue (arr : List ℕ) : ℕ :=
  (List.range 8).foldl (fun f iii => (f + arr.getD iii 0 * powerOf10 iii) % 4294967296) 0

/-- Source `parseValue` result: `double(f) * multiplier / divider`,
modelled exactly in ℚ. -/
def parseValue (s : MState) : ℚ :=
  (rawValue s.digitArray : ℚ) * (s.multiplier : ℚ) / (s.divider : ℚ)

/-- Divider update performed at every terminator character: if a decimal
point and at least one digit exist, `divider = powerOf10(numeric - decimal
+ 1)`.  The C expression is computed in `int` and converted to `byte`,
hence the `% 256` of the (always positive, two's-complement-shifted)
value `numeric + 257 - decimal`. -/
def finalizeDivider (s : MState) : ℕ :=
  if s.decimal ≠ 0 ∧ s.numeric ≠ 0 then
    powerOf10 ((s.numeric + 257 - s.decimal) % 256)
  else s.divider

/-- State change common to every terminator character (`parseCommand`,
lines 170-175): update the divider, then clear `numeric` and `decimal`. -/
def terminate (s : MState) : MState :=
  { s with divider := finalizeDivider s, numeric := 0, decimal := 0 }

/-- Value that a terminator finalizes and hands to the encoder:
`parseValue` evaluated after the terminator's divider update. -/
def finalizeValue (s : MState) : ℚ := parseValue (terminate s)

/-- ASCII `toupper`, as applied to the command character. -/
def toUpperC (c : Char) : Char :=
  if 'a' ≤ c ∧ c ≤ 'z' then Char.ofNat (c.toNat - 32) else c

/-- Digit entry into the buffer (`parseCommand`, lines 161-164): if this is
the first digit since the last terminator (`numeric = 0`) the other seven
slots are erased, otherwise the buffer shifts one position up; the new
digit lands in slot 0. -/
def shiftDigits (arr : List ℕ) (numeric d : ℕ) : List ℕ :=
  if numeric ≠ 0 then d :: arr.take 7 else d :: List.replicate 7 0

/-- The chip constant `0x10000000UL / 25000000.0` (2^28 over the 25 MHz
reference clock), modelled exactly in ℚ. -/
def FREQ_SCALE : ℚ := 268435456 / 25000000

/-- C `round` on the nonnegative frequency quantities used here
(round half up), landing in ℕ. -/
def roundC (x : ℚ) : ℕ := (⌊x + 1 / 2⌋).toNat

/-- Rectangle adjustment (`AD9833_setFrequency`, lines 280-283): if the
wave type is `wRectangle` and the already-scaled frequency is below 12e6,
switch to `wRectangle2` and double the scaled frequency. -/
def freqAdjust (wt : ℕ) (f : ℚ) : ℕ × ℚ :=
  if wt = wRectangle ∧ f < 12000000 then (wRectangle2, f * 2) else (wt, f)

/-- Register value computation (`AD9833_setFrequency`, lines 285-287):
`regFrequency = round(frequency)` stored into a 32-bit `unsigned long`
(hence reduced `% 2^32`), then clamped to `0x7FFFFFF` when at or above
`0x8000000`. -/
def regValueOf (f : ℚ) : ℕ :=
  let r := roundC f % 4294967296
  if 0x8000000 ≤ r then 0x7FFFFFF else r

/-- Source `AD9833_setFrequency`: scale the value by `FREQ_SCALE` when
`isFreq`, apply the rectangle adjustment, compute the clamped register
value, and emit the three words: frequency LSB, frequency MSB, control.
Returns the (possibly updated) wave type and the emitted words. -/
def AD9833_setFrequency (wt : ℕ) (v : ℚ) (isFreq : Bool) : ℕ × List ℕ :=
  let p := if isFreq then freqAdjust wt (v * FREQ_SCALE) else (wt, v)
  let reg := regValueOf p.2
  (p.1, [(reg &&& 0x3FFF) ||| 0x4000,
         ((reg &&& 0xFFFC000) >>> 14) ||| 0x4000,
         0x2000 ||| p.1])

/-- Source `AD9833_reset`: a single control-word write. -/
def AD9833_reset : List ℕ := [0x2100]

/-- Source `parseCommand`, processing one input character: digits are
collected into the buffer (resetting the scale factors), a decimal point
records its position, and every other character terminates numeric entry
and dispatches on its uppercased value.  Returns the new state and the
list of register words written. -/
def processChar (s : MState) (c : Char) : MState × List ℕ :=
  if '0' ≤ c ∧ c ≤ '9' then
    ({ s with digitArray := shiftDigits s.digitArray s.numeric (c.toNat - 48)
              numeric := (s.numeric + 1) % 256
              multiplier := 1
              divider := 1 }, [])
  else if c = '.' then
    ({ s with decimal := (s.numeric + 1) % 256 }, [])
  else
    let s2 := terminate s
    let u := toUpperC c
    if u = '?' then (s2, [])
    else if u = 'E' then ({ s2 with echo := s2.digitArray.getD 0 0 }, [])
    else if u = 'K' then ({ s2 with multiplier := 1000 }, [])
    else if u = 'M' then ({ s2 with multiplier := 1000000 }, [])
    else if u = 'N' then
      ({ s2 with waveType := (AD9833_setFrequency wSine (parseValue s2) false).1 },
       (AD9833_setFrequency wSine (parseValue s2) false).2)
    else if u = 'O' then (s2, AD9833_reset)
    else if u = 'S' then
      ({ s2 with waveType := (AD9833_setFrequency wSine (parseValue s2) true).1 },
       (AD9833_setFrequency wSine (parseValue s2) true).2)
    else if u = 'T' then
      ({ s2 with waveType := (AD9833_setFrequency wTriangle (parseValue s2) true).1 },
       (AD9833_setFrequency wTriangle (parseValue s2) true).2)
    else if u = 'Z' then ({ s2 with debug := s2.digitArray.getD 0 0 }, [])
    else (s2, [])

/-- State transition of one loop iteration, discarding the written words. -/
def stepM (s : MState) (c : Char) : MState := (processChar s c).1

/-- Run the interpreter over a list of input characters. -/
def runMachine (s : MState) (cs : List Char) : MState := cs.foldl stepM s

/-- Recombination of the emitted frequency LSB and MSB words back into a
28-bit register value: `(msbWord & 0x3FFF) << 14 | (lsbWord & 0x3FFF)`. -/
def decodeWords (ws : List ℕ) : ℕ :=
  ((ws.getD 1 0 &&& 0x3FFF) <<< 14) ||| (ws.getD 0 0 &&& 0x3FFF)

/-- ASCII character of a decimal digit. -/
def digitChar (d : ℕ) : Char := Char.ofNat (48 + d)

/-- The decimal integer spelled by a digit sequence in entry order
(first digit most significant). -/
def digitsToNat (ds : List ℕ) : ℕ := ds.foldl (fun a d => 10 * a + d) 0

theorem finalizeValue_eval (s : MState) :
    finalizeValue s = (rawValue s.digitArray : ℚ) * (s.multiplier : ℚ) / (finalizeDivider s : ℚ) :=
  rfl

/-- Claim C9: from a fresh entry state, the input 1 . 5 followed by a
finalizing terminator yields the value 1.5: the digit count is 2, the
decimal marker position is 2, the divider becomes 10^(2-2+1) = 10, the raw
integer is 15, and 15/10 = 3/2. -/
theorem C9_decimal_point_entry :
    (runMachine initState ['1', '.', '5']).numeric = 2 ∧
    (runMachine initState ['1', '.', '5']).decimal = 2 ∧
    finalizeDivider (runMachine initState ['1', '.', '5']) = 10 ∧
    rawValue (runMachine initState ['1', '.', '5']).digitArray = 15 ∧
    finalizeValue (runMachine initState ['1', '.', '5']) = 3 / 2 := by
  refine ⟨by decide, by decide, by decide, by decide, ?_⟩
  rw [finalizeValue_eval]
  have h1 : rawValue (runMachine initState ['1', '.', '5']).digitArray = 15 := by decide
  have h2 : (runMachine initState ['1', '.', '5']).multiplier = 1 := by decide
  have h3 : finalizeDivider (runMachine initState ['1', '.', '5']) = 10 := by decide
  rw [h1, h2, h3]
  norm_num

/-- Claim C2, counterexample: the sequence 5 K 0 followed by a terminator
does not finalize to 50 (it finalizes to 0, because K terminates numeric
entry, so the digit 0 starts a fresh entry and clears the buffer). -/
theorem C2_counterexample : finalizeValue (runMachine initState ['5', 'K', '0']) ≠ 50 := by
  rw [finalizeValue_eval]
  have h1 : rawValue (runMachine initState ['5', 'K', '0']).digitArray = 0 := by decide
  rw [h1]
  norm_num

/-- Claim C2, amended: K is handled in the terminator branch, so after
5 K the digit count is 0 (K terminated numeric entry) while the buffer
still holds the 5 and the multiplier is 1000; the next digit 0 then starts
a fresh entry, clearing the buffer (the 5 is discarded) and resetting the
multiplier to 1, so the finalized value is 0, not 50 and not 5000. -/
theorem C2_amended :
    (runMachine initState ['5', 'K']).numeric = 0 ∧
    (runMachine initState ['5', 'K']).multiplier = 1000 ∧
    (runMachine initState ['5', 'K']).digitArray = [5, 0, 0, 0, 0, 0, 0, 0] ∧
    (runMachine initState ['5', 'K', '0']).digitArray = [0, 0, 0, 0, 0, 0, 0, 0] ∧
    (runMachine initState ['5', 'K', '0']).multiplier = 1 ∧
    finalizeValue (runMachine initState ['5', 'K', '0']) = 0 := by
  refine ⟨by decide, by decide, by decide, by decide, by decide, ?_⟩
  rw [finalizeValue_eval]
  have h1 : rawValue (runMachine initState ['5', 'K', '0']).digitArray = 0 := by decide
  rw [h1]
  norm_num

/-- Claim C1, counterexample: the state reached from power-on by entering
the digit 1 is changed by the unrecognized terminator X: the numeric digit
count drops from 1 to 0, so the entry state is not left bit-for-bit
unchanged. -/
theorem C1_counterexample :
    (runMachine initState ['1']).numeric = 1 ∧
    (processChar (runMachine initState ['1']) 'X').1.numeric = 0 ∧
    (processChar (runMachine initState ['1']) 'X').1 ≠ runMachine initState ['1'] := by
  decide

/-- Claim C1, amended: an unrecognized terminator emits no register word
and leaves the digit buffer, the multiplier and the generator state
(wave type, echo, debug) unchanged, but it does terminate numeric entry:
the digit count and decimal marker are reset to 0 and the divider receives
its terminator-time update. -/
theorem C1_amended (s : MState) (c : Char)
    (hdig : ¬('0' ≤ c ∧ c ≤ '9')) (hdot : c ≠ '.')
    (hcmd : toUpperC c ∉ (['?', 'E', 'K', 'M', 'N', 'O', 'S', 'T', 'Z'] : List Char)) :
    processChar s c = (terminate s, []) ∧
    (terminate s).digitArray = s.digitArray ∧
    (terminate s).multiplier = s.multiplier ∧
    (terminate s).waveType = s.waveType ∧
    (terminate s).echo = s.echo ∧
    (terminate s).debug = s.debug ∧
    (terminate s).numeric = 0 ∧
    (terminate s).decimal = 0 ∧
    (terminate s).divider = finalizeDivider s := by
  simp only [List.mem_cons, List.not_mem_nil, or_false, not_or] at hcmd
  obtain ⟨hq, hE, hK, hM, hN, hO, hS, hT, hZ⟩ := hcmd
  refine ⟨?_, rfl, rfl, rfl, rfl, rfl, rfl, rfl, rfl⟩
  simp [processChar, hdig, hdot, hq, hE, hK, hM, hN, hO, hS, hT, hZ]

/-- Claim C1, witness: instantiating the amended claim at the state
reached by entering 1 and at the terminator X. -/
theorem C1_witness :
    ¬('0' ≤ 'X' ∧ 'X' ≤ '9') ∧ 'X' ≠ '.' ∧
    toUpperC 'X' ∉ (['?', 'E', 'K', 'M', 'N', 'O', 'S', 'T', 'Z'] : List Char) ∧
    processChar (runMachine initState ['1']) 'X' = (terminate (runMachine initState ['1']), []) :=
  ⟨by decide, by decide, by decide,
   (C1_amended (runMachine initState ['1']) 'X' (by decide) (by decide) (by decide)).1⟩

/-- Claim C6, counterexample: at 5 MHz the scaled frequency is
53687091.2, which is not below the 12e6 threshold (the threshold is
tested on the scaled value, not the Hz value), so a rectangle-wave
frequency command does not switch the waveform to half-frequency
rectangle: the wave type stays `wRectangle`. -/
theorem C6_counterexample :
    ¬((5000000 : ℚ) * FREQ_SCALE < 12000000) ∧
    (AD9833_setFrequency wRectangle 5000000 true).1 = wRectangle ∧
    wRectangle ≠ wRectangle2 := by
  have h : ¬((5000000 : ℚ) * FREQ_SCALE < 12000000) := by norm_num [FREQ_SCALE]
  refine ⟨h, ?_, by decide⟩
  simp [AD9833_setFrequency, freqAdjust, h]

/-- Claim C6, amended: the 12e6 threshold applies to the scaled value.
When the wave type is Rectangle and the scaled value v * 2^28 / 25e6 is
below 12e6 (in Hz: v below about 1117587.089, so 1 MHz qualifies but
5 MHz does not), the waveform switches to half-frequency rectangle and
the scaled value is doubled before rounding and register emission. -/
theorem C6_amended (v : ℚ) (h : v * FREQ_SCALE < 12000000) :
    (AD9833_setFrequency wRectangle v true).1 = wRectangle2 ∧
    (AD9833_setFrequency wRectangle v true).2 =
      [(regValueOf (v * FREQ_SCALE * 2) &&& 0x3FFF) ||| 0x4000,
       ((regValueOf (v * FREQ_SCALE * 2) &&& 0xFFFC000) >>> 14) ||| 0x4000,
       0x2000 ||| wRectangle2] := by
  constructor <;> simp [AD9833_setFrequency, freqAdjust, h]

/-- Claim C6, witness: at 1 MHz the scaled value 10737418.24 is below
12e6, so the amended claim applies. -/
theorem C6_witness :
    (1000000 : ℚ) * FREQ_SCALE < 12000000 ∧
    (AD9833_setFrequency wRectangle 1000000 true).1 = wRectangle2 :=
  ⟨by norm_num [FREQ_SCALE], (C6_amended 1000000 (by norm_num [FREQ_SCALE])).1⟩

/-- Claim C8: dispatching the command O emits exactly one register word,
0x2100, and leaves the persisted wave type unchanged, whatever the prior
state of the digit buffer and waveform. -/
theorem C8_off_single_write (s : MState) :
    (processChar s 'O').2 = [0x2100] ∧ (processChar s 'O').1.waveType = s.waveType := by
  constructor <;> simp +decide [processChar, terminate, AD9833_reset]

/-- Claim C5: each frequency-setting command emits exactly three register
words, in order: the frequency LSB word `(regValue &&& 0x3FFF) ||| 0x4000`,
the frequency MSB word `((regValue &&& 0xFFFC000) >>> 14) ||| 0x4000`, and
last the control word `0x2000 ||| waveType` with the updated wave type.
S and T scale the finalized value by FREQ_SCALE; N uses it directly. -/
theorem C5_three_words (s : MState) :
    (processChar s 'S').2 =
      [(regValueOf (finalizeValue s * FREQ_SCALE) &&& 0x3FFF) ||| 0x4000,
       ((regValueOf (finalizeValue s * FREQ_SCALE) &&& 0xFFFC000) >>> 14) ||| 0x4000,
       0x2000 ||| (processChar s 'S').1.waveType] ∧
    (processChar s 'T').2 =
      [(regValueOf (finalizeValue s * FREQ_SCALE) &&& 0x3FFF) ||| 0x4000,
       ((regValueOf (finalizeValue s * FREQ_SCALE) &&& 0xFFFC000) >>> 14) ||| 0x4000,
       0x2000 ||| (processChar s 'T').1.waveType] ∧
    (processChar s 'N').2 =
      [(regValueOf (finalizeValue s) &&& 0x3FFF) ||| 0x4000,
       ((regValueOf (finalizeValue s) &&& 0xFFFC000) >>> 14) ||| 0x4000,
       0x2000 ||| (processChar s 'N').1.waveType] :=
  ⟨rfl, rfl, rfl⟩

/-- Claim C7, failing input: the finalized value 400000000 Hz (entered as
4 0 0 M) scales to exactly 2^32, so `round(frequency)` is 4294967296; this
is at or above 0x8000000, yet the conversion of the rounded double into
the 32-bit `unsigned long` wraps it to 0 before the clamp is tested, so
the emitted frequency register value is 0, not the clamped 0x7FFFFFF: the
words written are LSB 0x4000, MSB 0x4000, control 0x2000. -/
theorem C7_wrap_escapes_clamp :
    finalizeValue (runMachine initState ['4', '0', '0', 'M']) = 400000000 ∧
    0x8000000 ≤ roundC ((400000000 : ℚ) * FREQ_SCALE) ∧
    regValueOf ((400000000 : ℚ) * FREQ_SCALE) = 0 ∧
    (processChar (runMachine initState ['4', '0', '0', 'M']) 'S').2 =
      [0x4000, 0x4000, 0x2000] := by
  have hval : finalizeValue (runMachine initState ['4', '0', '0', 'M']) = 400000000 := by
    rw [finalizeValue_eval]
    have h1 : rawValue (runMachine initState ['4', '0', '0', 'M']).digitArray = 400 := by decide
    have h2 : (runMachine initState ['4', '0', '0', 'M']).multiplier = 1000000 := by decide
    have h3 : finalizeDivider (runMachine initState ['4', '0', '0', 'M']) = 1 := by decide
    rw [h1, h2, h3]
    norm_num
  have hfloor : ⌊(400000000 : ℚ) * FREQ_SCALE + 1 / 2⌋ = 4294967296 := by
    rw [Int.floor_eq_iff]
    constructor <;> norm_num [FREQ_SCALE]
  have hround : roundC ((400000000 : ℚ) * FREQ_SCALE) = 4294967296 := by
    rw [roundC, hfloor]
    rfl
  have hreg : regValueOf ((400000000 : ℚ) * FREQ_SCALE) = 0 := by
    simp [regValueOf, hround]
  have hpv : parseValue (terminate (runMachine initState ['4', '0', '0', 'M'])) = 400000000 :=
    hval
  refine ⟨hval, by rw [hround]; norm_num, hreg, ?_⟩
  show (AD9833_setFrequency wSine
      (parseValue (terminate (runMachine initState ['4', '0', '0', 'M']))) true).2 =
    [0x4000, 0x4000, 0x2000]
  rw [hpv]
  show [(regValueOf ((400000000 : ℚ) * FREQ_SCALE) &&& 0x3FFF) ||| 0x4000,
        ((regValueOf ((400000000 : ℚ) * FREQ_SCALE) &&& 0xFFFC000) >>> 14) ||| 0x4000,
        0x2000 ||| wSine] = [0x4000, 0x4000, 0x2000]
  rw [hreg]
  decide

/-- The encoder leaves the wave type alone unless it is `wRectangle`. -/
theorem setFrequency_fst (wt : ℕ) (v : ℚ) (b : Bool) (h : wt ≠ wRectangle) :
    (AD9833_setFrequency wt v b).1 = wt := by
  cases b <;> simp [AD9833_setFrequency, freqAdjust, h]

/-- One interpreter step preserves the wave-type invariant. -/
theorem waveInv_step (s : MState) (c : Char)
    (h : s.waveType = wReset ∨ s.waveType = wSine ∨ s.waveType = wTriangle) :
    (processChar s c).1.waveType = wReset ∨ (processChar s c).1.waveType = wSine ∨
      (processChar s c).1.waveType = wTriangle := by
  by_cases hdig : ('0' ≤ c ∧ c ≤ '9')
  · simpa [processChar, hdig] using h
  · by_cases hdot : c = '.'
    · simpa [processChar, hdig, hdot] using h
    · simp only [processChar, if_neg hdig, if_neg hdot]
      split_ifs with h1 h2 h3 h4 h5 h6 h7 h8 h9
      · simpa [terminate] using h
      · simpa [terminate] using h
      · simpa [terminate] using h
      · simpa [terminate] using h
      · refine Or.inr (Or.inl ?_)
        show (AD9833_setFrequency wSine (parseValue (terminate s)) false).1 = wSine
        exact setFrequency_fst _ _ _ (by decide)
      · simpa [terminate] using h
      · refine Or.inr (Or.inl ?_)
        show (AD9833_setFrequency wSine (parseValue (terminate s)) true).1 = wSine
        exact setFrequency_fst _ _ _ (by decide)
      · refine Or.inr (Or.inr ?_)
        show (AD9833_setFrequency wTriangle (parseValue (terminate s)) true).1 = wTriangle
        exact setFrequency_fst _ _ _ (by decide)
      · simpa [terminate] using h
      · simpa [terminate] using h

/-- Claim C10: from power-on, for every input sequence the wave type only
ever holds `wReset`, `wSine` or `wTriangle`; in particular it is never
`wRectangle` (the R command is disabled) nor `wRectangle2`, so the
rectangle half-frequency branch of the encoder, which requires the wave
type to be `wRectangle`, can never fire. -/
theorem C10_waveType_invariant (cs : List Char) :
    ((runMachine initState cs).waveType = wReset ∨
      (runMachine initState cs).waveType = wSine ∨
      (runMachine initState cs).waveType = wTriangle) ∧
    (runMachine initState cs).waveType ≠ wRectangle ∧
    (runMachine initState cs).waveType ≠ wRectangle2 := by
  have main : ∀ (l : List Char) (s : MState),
      (s.waveType = wReset ∨ s.waveType = wSine ∨ s.waveType = wTriangle) →
      ((runMachine s l).waveType = wReset ∨ (runMachine s l).waveType = wSine ∨
        (runMachine s l).waveType = wTriangle) := by
    intro l
    induction l with
    | nil => intro s h; exact h
    | cons c t ih => intro s h; exact ih (stepM s c) (waveInv_step s c h)
  have hw := main cs initState (Or.inl rfl)
  refine ⟨hw, ?_, ?_⟩ <;> rcases hw with h | h | h <;> rw [h] <;> decide

theorem and_mask14 (a : ℕ) : a &&& 0x3FFF = a % 16384 := by
  have h : (0x3FFF : ℕ) = 2 ^ 14 - 1 := by norm_num
  rw [h, Nat.and_pow_two_sub_one_eq_mod]

theorem and_maskhi (a : ℕ) : (a &&& 0xFFFC000) >>> 14 = a >>> 14 % 16384 := by
  have h1 : (0xFFFC000 : ℕ) = (2 ^ 14 - 1) <<< 14 := by decide
  have h2 : (16384 : ℕ) = 2 ^ 14 := by norm_num
  apply Nat.eq_of_testBit_eq
  intro i
  rw [h1, h2, Nat.testBit_shiftRight, Nat.testBit_and, Nat.testBit_shiftLeft,
    Nat.testBit_mod_two_pow, Nat.testBit_shiftRight, Nat.testBit_two_pow_sub_one]
  simp [Nat.add_sub_cancel_left, Nat.le_add_right, Bool.and_comm]

theorem or_c4000_and_mask (x : ℕ) : (x ||| 0x4000) &&& 0x3FFF = x &&& 0x3FFF := by
  rw [Nat.and_distrib_right]
  have h : (0x4000 : ℕ) &&& 0x3FFF = 0 := by decide
  rw [h, Nat.or_zero]

/-- Recombining the two emitted frequency words recovers any register
value below 2^27. -/
theorem decode_encode (r : ℕ) (h : r < 0x8000000) :
    ((((r &&& 0xFFFC000) >>> 14) ||| 0x4000) &&& 0x3FFF) <<< 14 |||
      (((r &&& 0x3FFF) ||| 0x4000) &&& 0x3FFF) = r := by
  have e : (2 : ℕ) ^ 14 = 16384 := by norm_num
  rw [or_c4000_and_mask, or_c4000_and_mask, and_maskhi, and_mask14, and_mask14, and_mask14,
    Nat.shiftRight_eq_div_pow, Nat.shiftLeft_eq,
    Nat.mul_comm (r / 2 ^ 14 % 16384 % 16384) (2 ^ 14)]
  have hlt : r % 16384 % 16384 < 2 ^ 14 := by rw [e]; omega
  rw [← Nat.mul_add_lt_is_or hlt (r / 2 ^ 14 % 16384 % 16384), e]
  omega

/-- The encoder output for a wave type other than `wRectangle`. -/
theorem setFrequency_eval (wt : ℕ) (v : ℚ) (hne : wt ≠ wRectangle) :
    AD9833_setFrequency wt v true =
      (wt, [(regValueOf (v * FREQ_SCALE) &&& 0x3FFF) ||| 0x4000,
            ((regValueOf (v * FREQ_SCALE) &&& 0xFFFC000) >>> 14) ||| 0x4000,
            0x2000 ||| wt]) := by
  have hadj : freqAdjust wt (v * FREQ_SCALE) = (wt, v * FREQ_SCALE) := by
    rw [freqAdjust, if_neg]
    rintro ⟨h1, -⟩
    exact hne h1
  simp [AD9833_setFrequency, hadj]

/-- Claim C4, counterexample: the value V = 12499999.97 Hz satisfies
V * 2^28 / 25e6 < 2^27 (the scaled value is about 134217727.678), but its
rounded register value is 134217728 = 0x8000000, which the encoder clamps
to 0x7FFFFFF, so the recombined words give 134217727, not
round(V * 2^28 / 25e6) = 134217728. -/
theorem C4_counterexample :
    (1249999997 / 100 : ℚ) * FREQ_SCALE < 134217728 ∧
    decodeWords (AD9833_setFrequency wSine (1249999997 / 100) true).2 ≠
      roundC ((1249999997 / 100 : ℚ) * FREQ_SCALE) := by
  have hfloor : ⌊(1249999997 / 100 : ℚ) * FREQ_SCALE + 1 / 2⌋ = 134217728 := by
    rw [Int.floor_eq_iff]
    constructor <;> norm_num [FREQ_SCALE]
  have hround : roundC ((1249999997 / 100 : ℚ) * FREQ_SCALE) = 134217728 := by
    rw [roundC, hfloor]
    rfl
  have hreg : regValueOf ((1249999997 / 100 : ℚ) * FREQ_SCALE) = 0x7FFFFFF := by
    simp [regValueOf, hround]
  refine ⟨by norm_num [FREQ_SCALE], ?_⟩
  show decodeWords
      [(regValueOf ((1249999997 / 100 : ℚ) * FREQ_SCALE) &&& 0x3FFF) ||| 0x4000,
       ((regValueOf ((1249999997 / 100 : ℚ) * FREQ_SCALE) &&& 0xFFFC000) >>> 14) ||| 0x4000,
       0x2000 ||| wSine] ≠ roundC ((1249999997 / 100 : ℚ) * FREQ_SCALE)
  rw [hreg, hround]
  decide

/-- Claim C4, amended: for a frequency-setting command (wave type Sine or
Triangle) whose rounded scaled value round(V * 2^28 / 25e6) is below
0x8000000 (strict rounding, not just V * 2^28 / 25e6 < 2^27), recombining
the emitted LSB and MSB words as
(msbWord &&& 0x3FFF) <<< 14 ||| (lsbWord &&& 0x3FFF) yields exactly that
rounded value. -/
theorem C4_amended (v : ℚ) (wt : ℕ) (hwt : wt = wSine ∨ wt = wTriangle)
    (hr : roundC (v * FREQ_SCALE) < 0x8000000) :
    decodeWords (AD9833_setFrequency wt v true).2 = roundC (v * FREQ_SCALE) := by
  have hne : wt ≠ wRectangle := by
    rcases hwt with h | h <;> subst h <;> decide
  have hmod : roundC (v * FREQ_SCALE) % 4294967296 = roundC (v * FREQ_SCALE) :=
    Nat.mod_eq_of_lt (by omega)
  have hreg : regValueOf (v * FREQ_SCALE) = roundC (v * FREQ_SCALE) := by
    rw [regValueOf]
    simp only [hmod]
    rw [if_neg (by omega)]
  rw [setFrequency_eval wt v hne]
  show ((((regValueOf (v * FREQ_SCALE) &&& 0xFFFC000) >>> 14) ||| 0x4000) &&& 0x3FFF) <<< 14 |||
      (((regValueOf (v * FREQ_SCALE) &&& 0x3FFF) ||| 0x4000) &&& 0x3FFF) =
    roundC (v * FREQ_SCALE)
  rw [hreg]
  exact decode_encode _ hr

/-- Claim C4, witness: at V = 1000 Hz the rounded scaled value is 10737,
well below 0x8000000, and the emitted words recombine to it. -/
theorem C4_witness :
    roundC ((1000 : ℚ) * FREQ_SCALE) < 0x8000000 ∧
    decodeWords (AD9833_setFrequency wSine 1000 true).2 = roundC ((1000 : ℚ) * FREQ_SCALE) := by
  have hfloor : ⌊(1000 : ℚ) * FREQ_SCALE + 1 / 2⌋ = 10737 := by
    rw [Int.floor_eq_iff]
    constructor <;> norm_num [FREQ_SCALE]
  have hr : roundC ((1000 : ℚ) * FREQ_SCALE) < 0x8000000 := by
    rw [roundC, hfloor]
    norm_num
  exact ⟨hr, C4_amended 1000 wSine (Or.inl rfl) hr⟩

theorem runMachine_cons (s : MState) (c : Char) (cs : List Char) :
    runMachine s (c :: cs) = runMachine (stepM s c) cs := rfl

theorem processChar_digit (s : MState) (d : ℕ) (hd : d ≤ 9) :
    processChar s (digitChar d) =
      ({ s with digitArray := shiftDigits s.digitArray s.numeric d
                numeric := (s.numeric + 1) % 256
                multiplier := 1
                divider := 1 }, []) := by
  interval_cases d <;> rfl

theorem rawValue_explicit (a b c d e f g h : ℕ) :
    rawValue [a, b, c, d, e, f, g, h] =
      ((((((((0 + a * 1) % 4294967296 + b * 10) % 4294967296 + c * 100) % 4294967296 +
        d * 1000) % 4294967296 + e * 10000) % 4294967296 + f * 100000) % 4294967296 +
        g * 1000000) % 4294967296 + h * 10000000) % 4294967296 := rfl

theorem take8_cons_take7 (l arr : List ℕ) (d : ℕ) :
    (l ++ d :: arr.take 7).take 8 = (l ++ d :: arr).take 8 := by
  rw [List.take_append_eq_append_take, List.take_append_eq_append_take]
  congr 1
  cases h : 8 - l.length with
  | zero => rfl
  | succ k =>
    rw [List.take_succ_cons, List.take_succ_cons, List.take_take]
    rw [min_eq_left (by omega)]

theorem runDigits_aux (ds : List ℕ) : ∀ s : MState,
    (∀ d ∈ ds, d ≤ 9) → s.numeric ≠ 0 → s.numeric + ds.length ≤ 8 →
    s.multiplier = 1 → s.divider = 1 → s.digitArray.length = 8 →
    runMachine s (ds.map digitChar) =
      { s with digitArray := (ds.reverse ++ s.digitArray).take 8
               numeric := s.numeric + ds.length } := by
  induction ds with
  | nil =>
    intro s h9 hn hlen hm hd hl
    simp only [List.map_nil, List.reverse_nil, List.nil_append, List.length_nil, Nat.add_zero]
    rw [List.take_of_length_le (le_of_eq hl)]
    rfl
  | cons d t ih =>
    intro s h9 hn hlen hm hd hl
    simp only [List.length_cons] at hlen
    rw [List.map_cons, runMachine_cons]
    have hstep : stepM s (digitChar d) =
        { s with digitArray := d :: s.digitArray.take 7
                 numeric := s.numeric + 1
                 multiplier := 1
                 divider := 1 } := by
      have hpc := processChar_digit s d (h9 d (List.mem_cons_self d t))
      rw [stepM, hpc]
      have h1 : shiftDigits s.digitArray s.numeric d = d :: s.digitArray.take 7 := by
        rw [shiftDigits, if_pos hn]
      have h2 : (s.numeric + 1) % 256 = s.numeric + 1 := by omega
      rw [h1, h2]
    rw [hstep]
    have h9t : ∀ x ∈ t, x ≤ 9 := fun x hx => h9 x (List.mem_cons_of_mem d hx)
    rw [ih _ h9t (by simp) (by simp; omega) rfl rfl (by simp [List.length_take, hl])]
    rw [hm, hd]
    simp only [List.length_cons, MState.mk.injEq, and_true, true_and]
    refine ⟨?_, by omega⟩
    rw [take8_cons_take7, List.reverse_cons, List.append_assoc, List.singleton_append]

theorem runDigits_fresh (ds : List ℕ) (s : MState) (hne : ds ≠ [])
    (h9 : ∀ d ∈ ds, d ≤ 9) (hlen : ds.length ≤ 8) (hn : s.numeric = 0) :
    runMachine s (ds.map digitChar) =
      { s with digitArray := (ds.reverse ++ List.replicate 7 0).take 8
               numeric := ds.length
               multiplier := 1
               divider := 1 } := by
  obtain ⟨d, t, rfl⟩ := List.exists_cons_of_ne_nil hne
  simp only [List.length_cons] at hlen
  rw [List.map_cons, runMachine_cons]
  have hstep : stepM s (digitChar d) =
      { s with digitArray := d :: List.replicate 7 0
               numeric := 1
               multiplier := 1
               divider := 1 } := by
    have hpc := processChar_digit s d (h9 d (List.mem_cons_self d t))
    rw [stepM, hpc, hn]
    rfl
  rw [hstep]
  have h9t : ∀ x ∈ t, x ≤ 9 := fun x hx => h9 x (List.mem_cons_of_mem d hx)
  rw [runDigits_aux t _ h9t (by simp) (by simp; omega) rfl rfl (by simp)]
  simp only [List.length_cons, MState.mk.injEq, and_true, true_and]
  refine ⟨?_, by omega⟩
  rw [List.reverse_cons, List.append_assoc, List.singleton_append]

theorem rawValue_pad (l : List ℕ) (h9 : ∀ x ∈ l, x ≤ 9) (hl : l.length ≤ 8) :
    rawValue ((l ++ List.replicate 7 0).take 8) = l.foldr (fun x acc => x + 10 * acc) 0 := by
  rcases l with _ | ⟨a, _ | ⟨b, _ | ⟨c, _ | ⟨d, _ | ⟨e, _ | ⟨f, _ | ⟨g, _ | ⟨h, rest⟩⟩⟩⟩⟩⟩⟩⟩
  · decide
  · have ha := h9 a (by simp)
    show rawValue [a, 0, 0, 0, 0, 0, 0, 0] = a + 10 * 0
    rw [rawValue_explicit]
    omega
  · have ha := h9 a (by simp)
    have hb := h9 b (by simp)
    show rawValue [a, b, 0, 0, 0, 0, 0, 0] = a + 10 * (b + 10 * 0)
    rw [rawValue_explicit]
    omega
  · have ha := h9 a (by simp)
    have hb := h9 b (by simp)
    have hc := h9 c (by simp)
    show rawValue [a, b, c, 0, 0, 0, 0, 0] = a + 10 * (b + 10 * (c + 10 * 0))
    rw [rawValue_explicit]
    omega
  · have ha := h9 a (by simp)
    have hb := h9 b (by simp)
    have hc := h9 c (by simp)
    have hd2 := h9 d (by simp)
    show rawValue [a, b, c, d, 0, 0, 0, 0] = a + 10 * (b + 10 * (c + 10 * (d + 10 * 0)))
    rw [rawValue_explicit]
    omega
  · have ha := h9 a (by simp)
    have hb := h9 b (by simp)
    have hc := h9 c (by simp)
    have hd2 := h9 d (by simp)
    have he := h9 e (by simp)
    show rawValue [a, b, c, d, e, 0, 0, 0] =
      a + 10 * (b + 10 * (c + 10 * (d + 10 * (e + 10 * 0))))
    rw [rawValue_explicit]
    omega
  · have ha := h9 a (by simp)
    have hb := h9 b (by simp)
    have hc := h9 c (by simp)
    have hd2 := h9 d (by simp)
    have he := h9 e (by simp)
    have hf := h9 f (by simp)
    show rawValue [a, b, c, d, e, f, 0, 0] =
      a + 10 * (b + 10 * (c + 10 * (d + 10 * (e + 10 * (f + 10 * 0)))))
    rw [rawValue_explicit]
    omega
  · have ha := h9 a (by simp)
    have hb := h9 b (by simp)
    have hc := h9 c (by simp)
    have hd2 := h9 d (by simp)
    have he := h9 e (by simp)
    have hf := h9 f (by simp)
    have hg := h9 g (by simp)
    show rawValue [a, b, c, d, e, f, g, 0] =
      a + 10 * (b + 10 * (c + 10 * (d + 10 * (e + 10 * (f + 10 * (g + 10 * 0))))))
    rw [rawValue_explicit]
    omega
  · have hrest : rest = [] := by
      simp only [List.length_cons] at hl
      exact List.eq_nil_of_length_eq_zero (by omega)
    subst hrest
    have ha := h9 a (by simp)
    have hb := h9 b (by simp)
    have hc := h9 c (by simp)
    have hd2 := h9 d (by simp)
    have he := h9 e (by simp)
    have hf := h9 f (by simp)
    have hg := h9 g (by simp)
    have hh := h9 h (by simp)
    show rawValue [a, b, c, d, e, f, g, h] =
      a + 10 * (b + 10 * (c + 10 * (d + 10 * (e + 10 * (f + 10 * (g + 10 * (h + 10 * 0)))))))
    rw [rawValue_explicit]
    omega

theorem foldl_horner_comm (ds : List ℕ) : ∀ a : ℕ,
    ds.foldl (fun x y => y + 10 * x) a = ds.foldl (fun x y => 10 * x + y) a := by
  induction ds with
  | nil => intro a; rfl
  | cons d t ih =>
    intro a
    simp only [List.foldl_cons]
    rw [Nat.add_comm d (10 * a)]
    exact ih (10 * a + d)

theorem horner_reverse (ds : List ℕ) :
    ds.reverse.foldr (fun x acc => x + 10 * acc) 0 = digitsToNat ds := by
  rw [List.foldr_reverse, digitsToNat]
  exact foldl_horner_comm ds 0

/-- Claim C3: starting from a fresh entry state (no pending digits, no
decimal marker), entering a nonempty sequence of at most 8 digits and then
finalizing yields exactly the decimal integer those digits spell in entry
order (the last-entered digit is least significant in the buffer sum
over buffer slot i of slot value times 10^i). -/
theorem C3_digit_entry_value (ds : List ℕ) (s : MState) (hne : ds ≠ [])
    (hlen : ds.length ≤ 8) (h9 : ∀ d ∈ ds, d ≤ 9)
    (hn : s.numeric = 0) (hd : s.decimal = 0) :
    finalizeValue (runMachine s (ds.map digitChar)) = (digitsToNat ds : ℚ) := by
  rw [runDigits_fresh ds s hne h9 hlen hn, finalizeValue_eval]
  rw [finalizeDivider, if_neg (by rintro ⟨h1, -⟩; exact h1 hd)]
  have hraw : rawValue ((ds.reverse ++ List.replicate 7 0).take 8) = digitsToNat ds := by
    rw [rawValue_pad ds.reverse (fun x hx => h9 x (List.mem_reverse.mp hx))
      (by simpa using hlen), horner_reverse]
  simp only [hraw, Nat.cast_one, mul_one, div_one]

/-- Claim C3, witness: entering 1 0 0 0 from power-on finalizes to 1000. -/
theorem C3_witness :
    ([1, 0, 0, 0] : List ℕ) ≠ [] ∧ ([1, 0, 0, 0] : List ℕ).length ≤ 8 ∧
    (∀ d ∈ ([1, 0, 0, 0] : List ℕ), d ≤ 9) ∧
    initState.numeric = 0 ∧ initState.decimal = 0 ∧
    digitsToNat [1, 0, 0, 0] = 1000 ∧
    finalizeValue (runMachine initState ([1, 0, 0, 0].map digitChar)) =
      (digitsToNat [1, 0, 0, 0] : ℚ) :=
  ⟨by decide, by decide, by decide, rfl, rfl, by decide,
   C3_digit_entry_value [1, 0, 0, 0] initState (by decide) (by decide) (by decide) rfl rfl⟩
